import Mathlib

/-!
Verification of the `rerun` retry-executor library (Go).

Shallow embedding conventions:
* `time.Duration` (an `int64` nanosecond count) is modelled as `ℤ`; none of the
  properties below involve `int64` overflow, so no wraparound is applied.
* `uint` iteration counts are modelled as `ℕ`.
* `float64` parameters (`Slope`, the logarithmic curve fields) are modelled as
  `ℚ`; every concrete input used below is a small integer, on which binary64
  arithmetic is exact, so the rational model agrees with the Go computation
  there.  Go's `time.Duration(f)` conversion of a `float64` truncates toward
  zero, modelled by `truncQ`.
* `math.Log` is kept as an explicit function parameter `log : ℚ → ℚ`: the
  executor and validity logic never depend on its values, and theorems
  quantifying over `log` hold for every interpretation, in particular the real
  logarithm.  Concrete evaluations choose inputs where the only evaluated
  argument is `1` (where `math.Log` returns exactly `0`).
* `context.Context` is modelled as `Ctx`: a cancellation flag that is constant
  over one `Execute` run, together with the values of `ctx.Err()` and
  `context.Cause(ctx)`.
-/

/-- Go `float64 → int64` conversion: truncation toward zero. -/
def truncQ (q : ℚ) : ℤ :=
  if 0 ≤ q then ⌊q⌋ else ⌈q⌉

/-- Go `error` values distinguishable by the executor: the `rerun.Error`
string sentinels (compared by value in Go's `switch err`), errors produced by
`fmt.Errorf` when a panic is recovered, and arbitrary other errors (errors
returned by the user function, `ctx.Err()`, `context.Cause`). A recovered
panic's `fmt.Errorf` value is never `==` to an `Error` sentinel in Go, which
the separate constructors reflect. -/
inductive GoErr where
  | sentinel (s : String)
  | panicked (msg : String)
  | external (s : String)
deriving DecidableEq, Repr

/-- `ErrAttemptsExhausted = Error("all attempts exhausted")` -/
def ErrAttemptsExhausted : GoErr := .sentinel "all attempts exhausted"
/-- `ErrDoRetry = Error("retry attempt")` -/
def ErrDoRetry : GoErr := .sentinel "retry attempt"
/-- `ErrNegativeDuration = Error("negative duration")` -/
def ErrNegativeDuration : GoErr := .sentinel "negative duration"
/-- `ErrNilAlgorithm = Error("nil algorithm")` -/
def ErrNilAlgorithm : GoErr := .sentinel "nil algorithm"
/-- `ErrNoFunction = Error("no function defined")` -/
def ErrNoFunction : GoErr := .sentinel "no function defined"
/-- `ErrTooFewIterations = Error("too few iterations")` -/
def ErrTooFewIterations : GoErr := .sentinel "too few iterations"

/-- A `context.Context`, restricted to what the library observes: whether the
cancellation signal has fired (held constant across the modelled run), the
error reported by `ctx.Err()`, and the cause reported by `context.Cause`. -/
structure Ctx where
  done : Bool
  err : GoErr
  cause : GoErr

/-- `delayUnits` constants (`time.Duration` values). -/
def Nanosecond : ℤ := 1
def Microsecond : ℤ := 1000
def Millisecond : ℤ := 1000000
def Second : ℤ := 1000000000
def Minute : ℤ := 60000000000
def Hour : ℤ := 3600000000000

/-- `type FixedDelay time.Duration` -/
abbrev FixedDelay := ℤ

/-- `FixedDelay.OK`: error iff the duration is negative; the iteration count
is ignored. -/
def FixedDelay.OK (fd : FixedDelay) (_n : ℕ) : Option GoErr :=
  if fd < 0 then some ErrNegativeDuration else none

/-- `FixedDelay.Warmup` returns 0. -/
def FixedDelay.Warmup (_fd : FixedDelay) : ℤ := 0

/-- `FixedDelay.Wait` ignores the iteration number and returns the fixed
duration. -/
def FixedDelay.Wait (fd : FixedDelay) (_n : ℕ) : ℤ := fd

/-- `Fixed1s = FixedDelay(time.Second)` -/
def Fixed1s : FixedDelay := Second

/-- `LinearDelay`: `Start`, `Base` are `time.Duration`; `Slope` is `float64`
(modelled as `ℚ`). -/
structure LinearDelay where
  Start : ℤ
  Base : ℤ
  Slope : ℚ

/-- `LinearDelay.Wait(n)`: 0 for n = 0, otherwise
`time.Duration(Slope*(float64(n)-1)) + Base` — the float product is truncated
toward zero, then the integer `Base` is added. -/
def LinearDelay.Wait (ld : LinearDelay) (n : ℕ) : ℤ :=
  if n = 0 then 0
  else truncQ (ld.Slope * ((n : ℚ) - 1)) + ld.Base

/-- `LinearDelay.OK(n)`: error if `Start < 0`; then nil if `Wait(n) ≥ 0`
(fast path, taken without examining intermediate iterations); otherwise error
iff some `Wait(i) < 0` for `1 ≤ i < n`. -/
def LinearDelay.OK (ld : LinearDelay) (n : ℕ) : Option GoErr :=
  if ld.Start < 0 then some ErrNegativeDuration
  else if 0 ≤ ld.Wait n then none
  else if (List.range' 1 (n - 1)).any (fun i => decide (ld.Wait i < 0)) then
    some ErrNegativeDuration
  else none

/-- `LinearDelay.Warmup` returns the `Start` field. -/
def LinearDelay.Warmup (ld : LinearDelay) : ℤ := ld.Start

/-- `LogarithmicDelay`: `Start` is a `time.Duration`, `Units` a `delayUnits`
(a `time.Duration` scale constant), and the five curve parameters are
`float64` (modelled as `ℚ`). -/
structure LogarithmicDelay where
  Start : ℤ
  Units : ℤ
  Amplifier : ℚ
  Coefficient : ℚ
  Modifier : ℚ
  VerticalOffset : ℚ
  Denominator : ℚ

/-- `LogarithmicDelay.Wait(n)`: 0 for n = 0, otherwise
`time.Duration(Units) * time.Duration(A*math.Log(C*n+M) + V)`.
`math.Log` is the explicit parameter `log`.  The `Denominator` field is not
read. -/
def LogarithmicDelay.Wait (log : ℚ → ℚ) (ld : LogarithmicDelay) (n : ℕ) : ℤ :=
  if n = 0 then 0
  else ld.Units *
    truncQ (ld.Amplifier * log (ld.Coefficient * (n : ℚ) + ld.Modifier) +
      ld.VerticalOffset)

/-- `LogarithmicDelay.OK(n)`: error if `Start < 0`, otherwise error iff some
`Wait(i) < 0` for `1 ≤ i < n`.  No field is checked for being zero. -/
def LogarithmicDelay.OK (log : ℚ → ℚ) (ld : LogarithmicDelay) (n : ℕ) :
    Option GoErr :=
  if ld.Start < 0 then some ErrNegativeDuration
  else if (List.range' 1 (n - 1)).any
      (fun i => decide (LogarithmicDelay.Wait log ld i < 0)) then
    some ErrNegativeDuration
  else none

/-- `LogarithmicDelay.Warmup` returns the `Start` field. -/
def LogarithmicDelay.Warmup (ld : LogarithmicDelay) : ℤ := ld.Start

/-- `sleep(ctx, d)` from src/sleep.go.  Returns the Go error (`none` = nil)
together with a flag recording whether a timer was created.  For `d > 0` the
`select` is resolved deterministically by the constant-`Ctx` model: a fired
context has `ctx.Done()` ready immediately while the timer needs `d > 0` time,
so `ctx.Err()` is returned; an unfired (never-firing) context lets the timer
fire. -/
def sleep (ctx : Ctx) (d : ℤ) : Option GoErr × Bool :=
  if d = 0 then (none, false)
  else if d < 0 then (some ErrNegativeDuration, false)
  else if ctx.done then (some ctx.err, true)
  else (none, true)

/-- Result of one call of the user `Func`: either it returns an error value
(`none` = nil) or it panics with a message. -/
inductive FuncRes where
  | ret (e : Option GoErr)
  | panics (msg : String)

/-- `Func = func(uint) error`, extended so that a call may panic. -/
def Func := ℕ → FuncRes

/-- `Algorithm` interface: validity check, warmup duration, per-iteration
wait duration. -/
structure Algorithm where
  OK : ℕ → Option GoErr
  Warmup : ℤ
  Wait : ℕ → ℤ

/-- `FixedDelay` as an `Algorithm` value. -/
def FixedDelay.toAlgorithm (fd : FixedDelay) : Algorithm :=
  ⟨fd.OK, fd.Warmup, fd.Wait⟩

/-- `LinearDelay` as an `Algorithm` value. -/
def LinearDelay.toAlgorithm (ld : LinearDelay) : Algorithm :=
  ⟨ld.OK, ld.Warmup, ld.Wait⟩

/-- `LogarithmicDelay` as an `Algorithm` value (for a given interpretation of
`math.Log`). -/
def LogarithmicDelay.toAlgorithm (log : ℚ → ℚ) (ld : LogarithmicDelay) :
    Algorithm :=
  ⟨LogarithmicDelay.OK log ld, ld.Warmup, LogarithmicDelay.Wait log ld⟩

/-- The `Rerun` struct: attempt budget, attached algorithm, optional attached
function, deferred construction error. -/
structure Rerun where
  iterations : ℕ
  algorithm : Algorithm
  function : Option Func
  err : Option GoErr

/-- `Rerun.Err()`: the deferred construction error if set, otherwise the
algorithm's `OK` verdict for the configured iteration count. -/
def Rerun.Err (r : Rerun) : Option GoErr :=
  match r.err with
  | some e => some e
  | none => r.algorithm.OK r.iterations

/-- `Rerun.runFunction(i)`: call the attached function; a panic is recovered
and converted to `fmt.Errorf("recovered from panic: %v", perr)`. -/
def runFunction (f : Func) (i : ℕ) : Option GoErr :=
  match f i with
  | .ret e => e
  | .panics m => some (.panicked ("recovered from panic: " ++ m))

/-- Observable events of one `Execute` run: the warmup sleep, the
inter-attempt sleep for iteration `i` (`sleep(ctx, Wait(i))`), and the
invocation of the user function with attempt index `i`. -/
inductive Ev where
  | warmup
  | wait (i : ℕ)
  | call (i : ℕ)
deriving DecidableEq, Repr

/-- `true` exactly on invocation events. -/
def Ev.isCall : Ev → Bool
  | .call _ => true
  | _ => false

/-- `true` exactly on inter-attempt wait events. -/
def Ev.isWait : Ev → Bool
  | .wait _ => true
  | _ => false

/-- The iteration index carried by a `wait`/`call` event (0 for `warmup`). -/
def Ev.idx : Ev → ℕ
  | .warmup => 0
  | .wait i => i
  | .call i => i

/-- The `for i := 0; i < iterations; i++` loop of `Rerun.Execute`, with `i`
the current index and `rem` the remaining iterations (`i + rem = iterations`
at the top-level call).  Returns the loop's error result (`some` of the Go
return value; exhaustion of the loop yields `ErrAttemptsExhausted`) together
with the trace of events. -/
def execLoop (ctx : Ctx) (alg : Algorithm) (f : Func) :
    ℕ → ℕ → Option GoErr × List Ev
  | _, 0 => (some ErrAttemptsExhausted, [])
  | i, rem + 1 =>
    let waitEvs : List Ev := if 0 < i then [.wait i] else []
    let waitErr : Option GoErr := if 0 < i then (sleep ctx (alg.Wait i)).1 else none
    match waitErr with
    | some e => (some e, waitEvs)
    | none =>
      match runFunction f i with
      | none => (none, waitEvs ++ [.call i])
      | some e =>
        if e = ErrDoRetry then
          let next := execLoop ctx alg f (i + 1) rem
          (next.1, waitEvs ++ [.call i] ++ next.2)
        else (some e, waitEvs ++ [.call i])

/-- `Rerun.Execute(ctx)` from src/rerun.go, with its event trace.  The final
`if ctx.done … err = context.Cause(ctx)` models the deferred
`select { default: / case <-ctx.Done(): }` that overrides the computed return
value with the cancellation cause when the signal has fired. -/
def Rerun.Execute (r : Rerun) (ctx : Ctx) : Option GoErr × List Ev :=
  let core : Option GoErr × List Ev :=
    match r.function with
    | none => (some ErrNoFunction, [])
    | some f =>
      if r.iterations < 2 then (some ErrTooFewIterations, [])
      else
        match r.Err with
        | some e => (some e, [])
        | none =>
          match sleep ctx r.algorithm.Warmup with
          | (some e, _) => (some e, [.warmup])
          | (none, _) =>
            let lp := execLoop ctx r.algorithm f 0 r.iterations
            (lp.1, .warmup :: lp.2)
  (if ctx.done then some ctx.cause else core.1, core.2)

/-- Modelled from the spec: `WaitFor(n) = unit * (A·ln(C·n + M) + V)` for
n ≥ 1, the parenthesised value truncated to an integral duration before the
unit scaling (spec §3, Logarithmic Delay). -/
def logWaitSpec (log : ℚ → ℚ) (ld : LogarithmicDelay) (n : ℕ) : ℤ :=
  ld.Units *
    truncQ (ld.Amplifier * log (ld.Coefficient * (n : ℚ) + ld.Modifier) +
      ld.VerticalOffset)

/-- C1 (refuting evaluation): `LinearDelay{Start:0, Base:-100, Slope:50}`
passes `OK(5)` through the fast path (`Wait(5) = 100 ≥ 0`), yet the checked
range contains iteration 1 with `Wait(1) = -100 < 0` — the validated
algorithm returns a negative duration inside the checked range, contradicting
the invariant and `LinearDelay`'s own documentation that a negative `Base`
always makes `OK` return `ErrNegativeDuration`. -/
theorem linearDelay_ok_accepts_negative_base :
    LinearDelay.OK ⟨0, -100, 50⟩ 5 = none ∧
      LinearDelay.Wait ⟨0, -100, 50⟩ 1 < 0 ∧ 1 < 5 := by
  refine ⟨?_, ?_, by decide⟩
  · norm_num [LinearDelay.OK, LinearDelay.Wait, truncQ]
  · norm_num [LinearDelay.Wait, truncQ]

/-- C2 (counterexample): `FixedDelay.Wait` ignores its argument, so for the
one-second fixed delay `WaitFor(0)` returns the full second, not zero. -/
theorem fixedDelay_wait_zero_ne_zero :
    FixedDelay.Wait Fixed1s 0 ≠ 0 := by
  norm_num [FixedDelay.Wait, Fixed1s, Second]

/-- C2 (amended): `WaitFor(0)` returns zero for every Linear and Logarithmic
parameterization; `FixedDelay.Wait` instead returns the configured constant
duration for every iteration, including 0. -/
theorem wait_zero_amended :
    (∀ ld : LinearDelay, ld.Wait 0 = 0) ∧
      (∀ (log : ℚ → ℚ) (ld : LogarithmicDelay),
        LogarithmicDelay.Wait log ld 0 = 0) ∧
      (∀ (fd : FixedDelay) (n : ℕ), fd.Wait n = fd) :=
  ⟨fun _ => rfl, fun _ _ => rfl, fun _ _ => rfl⟩

/-- C4: on every execution path, if the cancellation signal has fired then
`Execute` returns the cancellation's recorded cause instead of the
otherwise-computed result. -/
theorem execute_cancellation_supersedes (r : Rerun) (ctx : Ctx)
    (h : ctx.done = true) :
    (r.Execute ctx).1 = some ctx.cause := by
  simp [Rerun.Execute, h]

/-- C4 witness: a concretely misconfigured executor (no function attached)
under a fired context still returns the cause. -/
theorem execute_cancellation_supersedes_witness :
    ((⟨2, FixedDelay.toAlgorithm 0, none, none⟩ : Rerun).Execute
      ⟨true, ErrDoRetry, GoErr.external "the cause"⟩).1
      = some (GoErr.external "the cause") :=
  execute_cancellation_supersedes _ _ rfl

/-- C7 (refuting evaluation): a `LogarithmicDelay` with `Amplifier = 0` and
`Coefficient = 0` (with `Modifier = 1`, `VerticalOffset = 5`, millisecond
units) passes `OK(3)` for every interpretation of `math.Log` — in particular
the real one, whose only evaluated argument here is `0·i + 1 = 1` with
`ln 1 = 0`.  `OK` never inspects `Amplifier` or `Coefficient`, contradicting
its own documentation that these fields cannot be zero. -/
theorem logarithmicDelay_ok_accepts_zero_amplifier_coefficient :
    ∀ log : ℚ → ℚ,
      LogarithmicDelay.OK log ⟨0, Millisecond, 0, 0, 1, 5, 1⟩ 3 = none := by
  intro log
  simp [LogarithmicDelay.OK, LogarithmicDelay.Wait, truncQ, Millisecond,
    List.range']

/-- C9: the cancellable sleep returns nil without creating a timer for a zero
duration, and returns `ErrNegativeDuration` (without creating a timer, so
never clamping to zero) for every negative duration, under every context. -/
theorem sleep_zero_and_negative (ctx : Ctx) :
    sleep ctx 0 = (none, false) ∧
      ∀ d : ℤ, d < 0 → sleep ctx d = (some ErrNegativeDuration, false) := by
  refine ⟨rfl, fun d hd => ?_⟩
  have hne : d ≠ 0 := by omega
  simp [sleep, hd, hne]

/-- C9 witness at duration -3. -/
theorem sleep_zero_and_negative_witness :
    sleep ⟨false, ErrDoRetry, ErrDoRetry⟩ (-3)
      = (some ErrNegativeDuration, false) :=
  (sleep_zero_and_negative _).2 (-3) (by decide)

/-- C10: even under a context whose cancellation signal has already fired,
`sleep` with duration 0 returns nil (the zero-duration check precedes the
cancellation check), creating no timer. -/
theorem sleep_zero_ignores_cancellation (ctx : Ctx) (h : ctx.done = true) :
    sleep ctx 0 = (none, false) := rfl

/-- C10 witness: a context with the signal fired. -/
theorem sleep_zero_ignores_cancellation_witness :
    sleep ⟨true, ErrDoRetry, ErrDoRetry⟩ 0 = (none, false) :=
  sleep_zero_ignores_cancellation ⟨true, ErrDoRetry, ErrDoRetry⟩ rfl

/-- C8: `Wait` of two `LogarithmicDelay` values agreeing on every field
except `Denominator` coincides at every iteration, and for `n ≥ 1` the value
is the unit scale times the truncated curve value `A·log(C·n + M) + V`
(the spec formula, `logWaitSpec`) — for every interpretation of `math.Log`. -/
theorem logarithmicDelay_denominator_irrelevant (log : ℚ → ℚ)
    (ld1 ld2 : LogarithmicDelay)
    (hS : ld1.Start = ld2.Start) (hU : ld1.Units = ld2.Units)
    (hA : ld1.Amplifier = ld2.Amplifier)
    (hC : ld1.Coefficient = ld2.Coefficient)
    (hM : ld1.Modifier = ld2.Modifier)
    (hV : ld1.VerticalOffset = ld2.VerticalOffset) :
    (∀ n, LogarithmicDelay.Wait log ld1 n = LogarithmicDelay.Wait log ld2 n) ∧
      ∀ n, 1 ≤ n → LogarithmicDelay.Wait log ld1 n = logWaitSpec log ld1 n := by
  constructor
  · intro n
    unfold LogarithmicDelay.Wait
    rw [hU, hA, hC, hM, hV]
  · intro n hn
    unfold LogarithmicDelay.Wait logWaitSpec
    rw [if_neg (by omega)]

/-- C8 witness: two values differing only in `Denominator` (1 vs 2) produce
the same wait at iteration 5, and iteration 5 matches the spec formula. -/
theorem logarithmicDelay_denominator_irrelevant_witness :
    LogarithmicDelay.Wait (fun _ => 0) ⟨0, 1, 1, 1, 1, 1, 1⟩ 5
        = LogarithmicDelay.Wait (fun _ => 0) ⟨0, 1, 1, 1, 1, 1, 2⟩ 5 ∧
      LogarithmicDelay.Wait (fun _ => 0) ⟨0, 1, 1, 1, 1, 1, 1⟩ 5
        = logWaitSpec (fun _ => 0) ⟨0, 1, 1, 1, 1, 1, 1⟩ 5 :=
  ⟨(logarithmicDelay_denominator_irrelevant (fun _ => 0)
      ⟨0, 1, 1, 1, 1, 1, 1⟩ ⟨0, 1, 1, 1, 1, 1, 2⟩
      rfl rfl rfl rfl rfl rfl).1 5,
    (logarithmicDelay_denominator_irrelevant (fun _ => 0)
      ⟨0, 1, 1, 1, 1, 1, 1⟩ ⟨0, 1, 1, 1, 1, 1, 2⟩
      rfl rfl rfl rfl rfl rfl).2 5 (by decide)⟩

/-- Expected event segment for iterations `i, i+1, …, i+m-1` of a run in
which every attempt requests a retry: `wait i, call i, wait i+1, call i+1, …`. -/
def tailSeg : ℕ → ℕ → List Ev
  | _, 0 => []
  | i, m + 1 => .wait i :: .call i :: tailSeg (i + 1) m

/-- Expected full loop trace of an `n`-attempt run in which every attempt
requests a retry: `call 0, wait 1, call 1, …, wait (n-1), call (n-1)`. -/
def interleave : ℕ → List Ev
  | 0 => []
  | m + 1 => .call 0 :: tailSeg 1 m

lemma sleep_fst_eq_none (ctx : Ctx) (d : ℤ) (hdone : ctx.done = false)
    (hd : 0 ≤ d) : (sleep ctx d).1 = none := by
  rcases eq_or_lt_of_le hd with h | h
  · simp [sleep, ← h]
  · have h0 : d ≠ 0 := by omega
    have h1 : ¬d < 0 := by omega
    simp [sleep, h0, h1, hdone]

lemma execLoop_retry (ctx : Ctx) (alg : Algorithm) (f : Func)
    (hdone : ctx.done = false) (hwait : ∀ i, 0 ≤ alg.Wait i)
    (hf : ∀ i, f i = .ret (some ErrDoRetry)) :
    ∀ rem i, 1 ≤ i →
      execLoop ctx alg f i rem = (some ErrAttemptsExhausted, tailSeg i rem) := by
  intro rem
  induction rem with
  | zero => intro i _; rfl
  | succ m ih =>
    intro i hi
    have hs := sleep_fst_eq_none ctx (alg.Wait i) hdone (hwait i)
    simp only [execLoop, if_pos (by omega : 0 < i), hs, runFunction, hf i,
      if_pos rfl, ih (i + 1) (by omega), tailSeg]
    rfl

lemma execLoop_retry_zero (ctx : Ctx) (alg : Algorithm) (f : Func) (n : ℕ)
    (hdone : ctx.done = false) (hwait : ∀ i, 0 ≤ alg.Wait i)
    (hf : ∀ i, f i = .ret (some ErrDoRetry)) (hn : 1 ≤ n) :
    execLoop ctx alg f 0 n = (some ErrAttemptsExhausted, interleave n) := by
  obtain ⟨m, rfl⟩ : ∃ m, n = m + 1 := ⟨n - 1, by omega⟩
  simp only [execLoop, if_neg (by omega : ¬0 < 0), runFunction, hf 0,
    if_pos rfl, execLoop_retry ctx alg f hdone hwait hf m 1 le_rfl, interleave]
  rfl

lemma tailSeg_countP_call : ∀ (m i : ℕ), (tailSeg i m).countP Ev.isCall = m := by
  intro m
  induction m with
  | zero => intro i; rfl
  | succ k ih =>
    intro i
    simp [tailSeg, List.countP_cons, Ev.isCall, ih (i + 1)]

lemma interleave_countP_call (n : ℕ) : (interleave n).countP Ev.isCall = n := by
  cases n with
  | zero => rfl
  | succ m => simp [interleave, List.countP_cons, Ev.isCall, tailSeg_countP_call]

lemma tailSeg_filter_wait :
    ∀ (m i : ℕ), (tailSeg i m).filter Ev.isWait = (List.range' i m).map Ev.wait := by
  intro m
  induction m with
  | zero => intro i; rfl
  | succ k ih =>
    intro i
    rw [List.range'_succ]
    simp [tailSeg, Ev.isWait, ih (i + 1)]

lemma interleave_filter_wait (n : ℕ) :
    (interleave n).filter Ev.isWait = (List.range' 1 (n - 1)).map Ev.wait := by
  cases n with
  | zero => rfl
  | succ m => simp [interleave, Ev.isWait, tailSeg_filter_wait]

/-- C3: with a function attached, a budget `n ≥ 2`, a validated algorithm all
of whose warmup/wait durations are non-negative, and a cancellation signal
that never fires, a function that requests a retry on every invocation makes
`Execute` return `ErrAttemptsExhausted`, with trace
`warmup, call 0, wait 1, call 1, …, wait (n-1), call (n-1)`: exactly `n`
invocations and exactly `n-1` inter-attempt waits with arguments `1..n-1` in
order, each wait immediately preceding the next attempt. -/
theorem execute_exhausts_attempts (alg : Algorithm) (ctx : Ctx) (f : Func)
    (n : ℕ) (hn : 2 ≤ n) (hdone : ctx.done = false)
    (hok : alg.OK n = none) (hwarm : 0 ≤ alg.Warmup)
    (hwait : ∀ i, 0 ≤ alg.Wait i)
    (hf : ∀ i, f i = .ret (some ErrDoRetry)) :
    (Rerun.Execute ⟨n, alg, some f, none⟩ ctx).1 = some ErrAttemptsExhausted ∧
      (Rerun.Execute ⟨n, alg, some f, none⟩ ctx).2 = Ev.warmup :: interleave n ∧
      (interleave n).countP Ev.isCall = n ∧
      (interleave n).filter Ev.isWait = (List.range' 1 (n - 1)).map Ev.wait := by
  have hs := sleep_fst_eq_none ctx alg.Warmup hdone hwarm
  obtain ⟨b, hb⟩ : ∃ b, sleep ctx alg.Warmup = (none, b) :=
    ⟨(sleep ctx alg.Warmup).2, by rw [← hs]⟩
  have hloop := execLoop_retry_zero ctx alg f n hdone hwait hf (by omega)
  refine ⟨?_, ?_, interleave_countP_call n, interleave_filter_wait n⟩ <;>
    simp [Rerun.Execute, Rerun.Err, hok, hdone, if_neg (by omega : ¬n < 2),
      hb, hloop]

/-- C3 witness: budget 3, zero fixed delay, always-retry function, unfired
context. -/
theorem execute_exhausts_attempts_witness :
    ((⟨3, FixedDelay.toAlgorithm 0,
        some (fun _ => FuncRes.ret (some ErrDoRetry)), none⟩ : Rerun).Execute
      ⟨false, ErrDoRetry, ErrDoRetry⟩).1 = some ErrAttemptsExhausted :=
  (execute_exhausts_attempts (FixedDelay.toAlgorithm 0)
    ⟨false, ErrDoRetry, ErrDoRetry⟩ (fun _ => FuncRes.ret (some ErrDoRetry)) 3
    (by omega) rfl rfl le_rfl (fun _ => le_rfl) (fun _ => rfl)).1

lemma execLoop_panic (ctx : Ctx) (alg : Algorithm) (f : Func)
    (hdone : ctx.done = false) (hwait : ∀ j, 0 ≤ alg.Wait j)
    (i : ℕ) (m : String)
    (hf : ∀ j, j < i → f j = .ret (some ErrDoRetry)) (hfi : f i = .panics m) :
    ∀ rem a, 1 ≤ a → a ≤ i → i < a + rem →
      (execLoop ctx alg f a rem).1
          = some (.panicked ("recovered from panic: " ++ m)) ∧
        ∀ j, Ev.call j ∈ (execLoop ctx alg f a rem).2 → j ≤ i := by
  intro rem
  induction rem with
  | zero => intro a _ _ _; omega
  | succ k ih =>
    intro a ha1 hai hik
    have hs := sleep_fst_eq_none ctx (alg.Wait a) hdone (hwait a)
    rcases eq_or_lt_of_le hai with heq | hlt
    · subst heq
      have hval : execLoop ctx alg f a (k + 1)
          = (some (.panicked ("recovered from panic: " ++ m)),
              [.wait a, .call a]) := by
        simp only [execLoop, if_pos (by omega : 0 < a), hs, runFunction, hfi]
        rw [if_neg (by simp [ErrDoRetry])]
        simp
      rw [hval]
      refine ⟨rfl, ?_⟩
      intro j hj
      simp at hj
      omega
    · have hval : execLoop ctx alg f a (k + 1)
          = ((execLoop ctx alg f (a + 1) k).1,
              .wait a :: .call a :: (execLoop ctx alg f (a + 1) k).2) := by
        simp only [execLoop, if_pos (by omega : 0 < a), hs, runFunction,
          hf a (by omega), if_pos rfl]
        simp
      rw [hval]
      obtain ⟨ih1, ih2⟩ := ih (a + 1) (by omega) (by omega) (by omega)
      refine ⟨ih1, ?_⟩
      intro j hj
      simp only [List.mem_cons] at hj
      rcases hj with h | h | h
      · cases h
      · cases h; omega
      · exact ih2 j h

lemma execLoop_panic_zero (ctx : Ctx) (alg : Algorithm) (f : Func)
    (hdone : ctx.done = false) (hwait : ∀ j, 0 ≤ alg.Wait j)
    (i : ℕ) (m : String) (n : ℕ) (hin : i < n)
    (hf : ∀ j, j < i → f j = .ret (some ErrDoRetry)) (hfi : f i = .panics m) :
    (execLoop ctx alg f 0 n).1
        = some (.panicked ("recovered from panic: " ++ m)) ∧
      ∀ j, Ev.call j ∈ (execLoop ctx alg f 0 n).2 → j ≤ i := by
  obtain ⟨k, rfl⟩ : ∃ k, n = k + 1 := ⟨n - 1, by omega⟩
  rcases Nat.eq_zero_or_pos i with hi0 | hipos
  · subst hi0
    have hval : execLoop ctx alg f 0 (k + 1)
        = (some (.panicked ("recovered from panic: " ++ m)), [.call 0]) := by
      simp only [execLoop, if_neg (by omega : ¬0 < 0), runFunction, hfi]
      rw [if_neg (by simp [ErrDoRetry])]
      simp
    rw [hval]
    refine ⟨rfl, ?_⟩
    intro j hj
    simp at hj
    omega
  · have hval : execLoop ctx alg f 0 (k + 1)
        = ((execLoop ctx alg f 1 k).1,
            .call 0 :: (execLoop ctx alg f 1 k).2) := by
      simp only [execLoop, if_neg (by omega : ¬0 < 0), runFunction,
        hf 0 (by omega), if_pos rfl]
      simp
    rw [hval]
    obtain ⟨ih1, ih2⟩ := execLoop_panic ctx alg f hdone hwait i m hf hfi k 1
      le_rfl (by omega) (by omega)
    refine ⟨ih1, ?_⟩
    intro j hj
    simp only [List.mem_cons] at hj
    rcases hj with h | h
    · cases h; omega
    · exact ih2 j h

/-- C5: if the attached function requests a retry on attempts `0..i-1` and
panics with message `m` on attempt `i` (within the budget), `Execute` returns
the terminal error `recovered from panic: m` and performs no invocation with
an attempt index beyond `i`. -/
theorem execute_panic_terminal (alg : Algorithm) (ctx : Ctx) (f : Func)
    (n i : ℕ) (m : String) (hn : 2 ≤ n) (hin : i < n)
    (hdone : ctx.done = false) (hok : alg.OK n = none) (hwarm : 0 ≤ alg.Warmup)
    (hwait : ∀ j, 0 ≤ alg.Wait j)
    (hf : ∀ j, j < i → f j = .ret (some ErrDoRetry)) (hfi : f i = .panics m) :
    (Rerun.Execute ⟨n, alg, some f, none⟩ ctx).1
        = some (GoErr.panicked ("recovered from panic: " ++ m)) ∧
      ∀ j, Ev.call j ∈ (Rerun.Execute ⟨n, alg, some f, none⟩ ctx).2 → j ≤ i := by
  obtain ⟨b, hb⟩ : ∃ b, sleep ctx alg.Warmup = (none, b) :=
    ⟨(sleep ctx alg.Warmup).2,
      by rw [← sleep_fst_eq_none ctx alg.Warmup hdone hwarm]⟩
  obtain ⟨h1, h2⟩ := execLoop_panic_zero ctx alg f hdone hwait i m n hin hf hfi
  constructor
  · simp [Rerun.Execute, Rerun.Err, hok, hdone, if_neg (by omega : ¬n < 2),
      hb, h1]
  · intro j hj
    simp only [Rerun.Execute, Rerun.Err, hok, if_neg (by omega : ¬n < 2),
      hb] at hj
    simp only [List.mem_cons] at hj
    rcases hj with h | h
    · cases h
    · exact h2 j h

/-- C5 witness: budget 2, the function retries on attempt 0 and panics with
"boom" on attempt 1. -/
theorem execute_panic_terminal_witness :
    ((⟨2, FixedDelay.toAlgorithm 0,
        some (fun j => if j = 0 then FuncRes.ret (some ErrDoRetry)
          else FuncRes.panics "boom"), none⟩ : Rerun).Execute
      ⟨false, ErrDoRetry, ErrDoRetry⟩).1
      = some (GoErr.panicked ("recovered from panic: " ++ "boom")) :=
  (execute_panic_terminal (FixedDelay.toAlgorithm 0)
    ⟨false, ErrDoRetry, ErrDoRetry⟩
    (fun j => if j = 0 then FuncRes.ret (some ErrDoRetry)
      else FuncRes.panics "boom") 2 1 "boom"
    le_rfl (by omega) rfl rfl le_rfl (fun _ => le_rfl)
    (fun j hj => by
      have : j = 0 := by omega
      subst this
      rfl)
    rfl).1

/-- C6: for a `LinearDelay` with non-negative `Start` and `Base` and any
slope, `OK(n)` succeeds iff the final computed wait `Wait(n)` is non-negative
or every computed wait for iterations `1..n-1` is non-negative. -/
theorem linearDelay_ok_iff (ld : LinearDelay) (n : ℕ)
    (hStart : 0 ≤ ld.Start) (hBase : 0 ≤ ld.Base) :
    ld.OK n = none ↔
      (0 ≤ ld.Wait n ∨ ∀ i, 1 ≤ i → i < n → 0 ≤ ld.Wait i) := by
  unfold LinearDelay.OK
  rw [if_neg (by omega)]
  by_cases hfin : 0 ≤ ld.Wait n
  · simp [hfin]
  · rw [if_neg hfin]
    rcases n with _ | m
    · exact absurd (by simp [LinearDelay.Wait] : (0 : ℤ) ≤ ld.Wait 0) hfin
    · simp only [hfin, false_or]
      constructor
      · intro h i h1 h2
        by_contra hneg
        have hmem : i ∈ List.range' 1 (m + 1 - 1) := by
          rw [List.mem_range'_1]
          omega
        have hany : (List.range' 1 (m + 1 - 1)).any
            (fun i => decide (ld.Wait i < 0)) = true := by
          rw [List.any_eq_true]
          exact ⟨i, hmem, by simp; omega⟩
        rw [if_pos hany] at h
        cases h
      · intro hall
        rw [if_neg]
        intro hc
        rw [List.any_eq_true] at hc
        obtain ⟨x, hx, hlt⟩ := hc
        rw [List.mem_range'_1] at hx
        simp only [decide_eq_true_eq] at hlt
        have := hall x (by omega) (by omega)
        omega

/-- C6 witness: the spec's own example — base 100, slope -25, budget 5: the
final wait is 0 ≥ 0, so validation succeeds. -/
theorem linearDelay_ok_iff_witness :
    LinearDelay.OK ⟨0, 100, -25⟩ 5 = none ↔
      (0 ≤ LinearDelay.Wait ⟨0, 100, -25⟩ 5 ∨
        ∀ i, 1 ≤ i → i < 5 → 0 ≤ LinearDelay.Wait ⟨0, 100, -25⟩ i) :=
  linearDelay_ok_iff ⟨0, 100, -25⟩ 5 (by norm_num) (by norm_num)
